import Mathlib

/-!
Verification of the attendee-data aggregation core of `app.py`.

The embedding models the two aggregation pipelines, `process_growthflow`
and `process_webinarjam`, together with the shared helper
`get_most_frequent_first_name`.  A raw uploaded table is modelled as a
header (list of column names) plus rows, each row a mapping from column
name to raw string cell value (all cells are read as strings in the
source, `dtype=str`).  Pandas-specific behaviour is embedded explicitly:

* `groupby(key)` sorts the distinct keys ascending (pandas default
  `sort=True`); string comparison is code-point lexicographic, as in
  Python.
* `drop_duplicates(['Email'])` keeps the first row of each email.
* `explode` turns a row whose day-set is empty into a single row with a
  null day, and otherwise one row per day token; `nunique` counts
  distinct non-null values.
* Python `str.strip` removes leading and trailing whitespace,
  `str.lower` lowercases, `str.split(',')` splits on every comma keeping
  empty pieces.
-/

/-- Characters removed by Python `str.strip()` (ASCII whitespace). -/
def isPyWs (c : Char) : Bool :=
  c = ' ' || c = '\t' || c = '\n' || c = '\r' || c = '\x0b' || c = '\x0c'

/-- Drop a maximal all-whitespace suffix of a character list. -/
def dropTrailingWs : List Char → List Char
  | [] => []
  | c :: cs =>
    if dropTrailingWs cs = [] then (if isPyWs c then [] else [c])
    else c :: dropTrailingWs cs

/-- Python `s.strip()`: remove leading and trailing whitespace. -/
def py_strip (s : String) : String :=
  ⟨dropTrailingWs (s.data.dropWhile isPyWs)⟩

/-- Python `s.lower()` (ASCII case folding, as used for the flag values). -/
def py_lower (s : String) : String :=
  ⟨s.data.map Char.toLower⟩

/-- Split a character list at every occurrence of `sep`, keeping empty
pieces, as Python `str.split(sep)` does with an explicit separator. -/
def splitCharList (sep : Char) : List Char → List (List Char)
  | [] => [[]]
  | c :: cs =>
    if c = sep then [] :: splitCharList sep cs
    else
      match splitCharList sep cs with
      | [] => [[c]]
      | g :: gs => (c :: g) :: gs

/-- Python `s.split(',')`. -/
def py_split_comma (s : String) : List String :=
  (splitCharList ',' s.data).map (fun l => ⟨l⟩)

/-- Keep the first occurrence of every element, in order: the list of
distinct elements of `l`, each at its first position.  This is the
element order in which a Python `Counter` built from `l` iterates. -/
def firstDedup {α : Type} [DecidableEq α] : List α → List α
  | [] => []
  | x :: xs => x :: (firstDedup xs).filter (fun y => y ≠ x)

/-- Insert into a sorted list (ascending w.r.t. `lt`). -/
def insertBy {α : Type} (lt : α → α → Bool) (x : α) : List α → List α
  | [] => [x]
  | y :: ys => if lt y x then y :: insertBy lt x ys else x :: y :: ys

/-- Insertion sort, ascending w.r.t. `lt`; pandas `groupby` presents the
distinct group keys sorted ascending. -/
def sortBy {α : Type} (lt : α → α → Bool) : List α → List α
  | [] => []
  | x :: xs => insertBy lt x (sortBy lt xs)

/-- Python string `<`: code-point lexicographic comparison. -/
def strLtL : List Char → List Char → Bool
  | [], [] => false
  | [], _ :: _ => true
  | _ :: _, [] => false
  | x :: xs, y :: ys => if x < y then true else if y < x then false else strLtL xs ys

/-- Python string `<` on `String`. -/
def strLt (a b : String) : Bool := strLtL a.data b.data

/-- Lexicographic `<` on (name, email, phone) triples, the sort order of a
pandas multi-key `groupby`. -/
def tripLt (a b : String × String × String) : Bool :=
  strLt a.1 b.1 ||
    (a.1 = b.1 && (strLt a.2.1 b.2.1 ||
      (a.2.1 = b.2.1 && strLt a.2.2 b.2.2)))

/-- A raw uploaded table: the header and one mapping from column name to
cell value per row (the RawRecord of the spec). -/
structure RawTable where
  columns : List String
  rows : List (String → String)

/-- Schema failure: the required column set that the input header did not
fully contain, as named by the error message of the source. -/
structure SchemaError where
  expected : List String
deriving DecidableEq

/-- One output row: a SummaryRecord. -/
structure SRow where
  first_name : String
  email : String
  phone : String
  attendance : Int
deriving DecidableEq, Repr

/-- The produced summary table: its column order plus its rows. -/
structure SummaryTable where
  columns : List String
  rows : List SRow
deriving DecidableEq

/-- Rows of a successful result, `[]` on error. -/
def okRows : Except SchemaError SummaryTable → List SRow
  | Except.ok s => s.rows
  | Except.error _ => []

/-- Columns of a successful result, `[]` on error. -/
def okCols : Except SchemaError SummaryTable → List String
  | Except.ok s => s.columns
  | Except.error _ => []

/-! ## The shared helper `get_most_frequent_first_name` (app.py lines 9-20) -/

/-- Inner helper `most_frequent_name`: `Counter(names).most_common(1)[0][0]`
for a non-empty list, `''` for an empty one.  `Counter` iterates its keys
in first-insertion order and `most_common` is stable, so among equally
frequent names the first encountered wins: the fold keeps the earlier
candidate unless a strictly larger count appears. -/
def most_frequent_name (names : List String) : String :=
  match firstDedup names with
  | [] => ""
  | x :: xs => xs.foldl (fun best y => if names.count y > names.count best then y else best) x

/-- The columns of the frame returned by
`df.groupby('Email').agg({...}).reset_index()`: `reset_index` re-inserts
the group key `Email` as the first column, followed by the aggregated
columns in the order of the `agg` dict. -/
def gmffnColumns : List String := ["Email", "First Name", "Phone", "Attendance"]

/-- The aggregated row of one email group: `First Name` by
`most_frequent_name` over the group's names, `Phone` by first value in
group order, `Attendance` by sum. -/
def gmffn_row (df : List SRow) (e : String) : SRow :=
  { first_name := most_frequent_name ((df.filter (fun r => r.email = e)).map (fun r => r.first_name))
    email := e
    phone := ((df.filter (fun r => r.email = e)).map (fun r => r.phone)).headD ""
    attendance := ((df.filter (fun r => r.email = e)).map (fun r => r.attendance)).sum }

/-- Embeds `get_most_frequent_first_name` (app.py lines 9-20): group the
frame by `Email` (pandas sorts the distinct keys ascending), and per
group aggregate with `gmffn_row`; `reset_index` yields the `Email`-first
column order. -/
def get_most_frequent_first_name (df : List SRow) : SummaryTable :=
  { columns := gmffnColumns
    rows := (sortBy strLt (firstDedup (df.map (fun r => r.email)))).map (gmffn_row df) }

/-! ## The Growthflow pipeline `process_growthflow` (app.py lines 23-63) -/

/-- Required Growthflow columns (app.py line 37). -/
def gf_required : List String := ["First Name", "Email", "Phone", "Attendance_Day"]

/-- One Growthflow record after column selection. -/
structure GFRec where
  first_name : String
  email : String
  phone : String
  attendance_day : String
deriving DecidableEq

/-- Embeds `set(x.split(',')) if x else set()` (app.py line 49): the
distinct comma-separated pieces of a non-empty cell, the empty set for an
empty cell.  No trimming is applied to the pieces.  A Python `set` is
unordered; it is represented by the distinct tokens in first-occurrence
order, which is observationally equivalent here (only the set's contents
ever influence an output value). -/
def parse_day_set (x : String) : List String :=
  if x = "" then [] else firstDedup (py_split_comma x)

/-- Embeds `df.explode('Attendance_Day')` for one row (app.py line 52): a
row whose day-set is empty becomes a single row with a null day, and
otherwise one row per day token. -/
def explode_rec (r : GFRec) : List (GFRec × Option String) :=
  match parse_day_set r.attendance_day with
  | [] => [(r, none)]
  | ds => ds.map (fun d => (r, some d))

/-- The Growthflow records of a raw table (column selection, line 43). -/
def gf_recs (t : RawTable) : List GFRec :=
  t.rows.map (fun r => ⟨r "First Name", r "Email", r "Phone", r "Attendance_Day"⟩)

/-- Embeds `df.groupby('Email')['Attendance_Day'].transform('nunique')`
for one email (app.py line 55): the number of distinct non-null exploded
day values among the rows of that email. -/
def nunique_days (ex : List (GFRec × Option String)) (e : String) : Int :=
  ((firstDedup ((ex.filter (fun p => p.1.email = e)).filterMap (fun p => p.2))).length : Int)

/-- The frame after line 55: every exploded row carries its group's
distinct-day count in the `Attendance` column (the token column is never
read afterwards and is dropped from the model). -/
def with_attendance (ex : List (GFRec × Option String)) : List SRow :=
  ex.map (fun p => ⟨p.1.first_name, p.1.email, p.1.phone, nunique_days ex p.1.email⟩)

/-- Embeds `df.drop_duplicates(['Email'])` (app.py line 58): keep the
first row of every email. -/
def drop_dup_by_email : List SRow → List SRow
  | [] => []
  | r :: rs => r :: (drop_dup_by_email rs).filter (fun x => x.email ≠ r.email)

/-- Embeds `process_growthflow` (app.py lines 23-63) from the point where
the tabular input is available: schema validation, day-set parsing,
explode, per-email distinct-day count, per-email dedup, and the final
grouped aggregation. -/
def process_growthflow (t : RawTable) : Except SchemaError SummaryTable :=
  if gf_required.all (fun c => t.columns.contains c) then
    Except.ok (get_most_frequent_first_name
      (drop_dup_by_email (with_attendance ((gf_recs t).flatMap explode_rec))))
  else
    Except.error ⟨gf_required⟩

/-! ## The WebinarJam pipeline `process_webinarjam` (app.py lines 66-106) -/

/-- Required WebinarJam columns (app.py line 80). -/
def wj_required : List String := ["First name", "Email", "Phone number", "Attended live"]

/-- Embeds the flag conversion `1 if x.lower() == 'yes' else 0`
(app.py line 92). -/
def wj_flag (x : String) : Int :=
  if py_lower x = "yes" then 1 else 0

/-- One WebinarJam record after column selection, phone stripping
(line 89) and flag conversion (line 92). -/
structure WJRow where
  first_name : String
  email : String
  phone : String
  attendance : Int
deriving DecidableEq

/-- The WebinarJam records of a raw table: `Phone number` is stripped of
surrounding whitespace (line 89) and `Attended live` converted to a 0/1
count (line 92). -/
def wj_recs (t : RawTable) : List WJRow :=
  t.rows.map (fun r =>
    ⟨r "First name", r "Email", py_strip (r "Phone number"), wj_flag (r "Attended live")⟩)

/-- The grouping key of one WebinarJam record. -/
def wj_key (r : WJRow) : String × String × String :=
  (r.first_name, r.email, r.phone)

/-- The aggregated row of one (name, email, phone) group: the sum of the
group's 0/1 attendance flags. -/
def wj_row (t : RawTable) (k : String × String × String) : SRow :=
  { first_name := k.1
    email := k.2.1
    phone := k.2.2
    attendance := (((wj_recs t).filter (fun r => wj_key r = k)).map
      (fun r => r.attendance)).sum }

/-- The WebinarJam summary frame:
`df.groupby(['First name','Email','Phone number'])['Attendance'].sum().reset_index()`
(app.py line 95) followed by the rename to the output column names
(lines 98-101); pandas presents the distinct key triples sorted
ascending. -/
def wj_summary (t : RawTable) : SummaryTable :=
  { columns := ["First Name", "Email", "Phone", "Attendance"]
    rows := (sortBy tripLt (firstDedup ((wj_recs t).map wj_key))).map (wj_row t) }

/-- Embeds `process_webinarjam` (app.py lines 66-106) from the point where
the tabular input is available: schema validation, then the grouped
aggregation. -/
def process_webinarjam (t : RawTable) : Except SchemaError SummaryTable :=
  if wj_required.all (fun c => t.columns.contains c) then
    Except.ok (wj_summary t)
  else
    Except.error ⟨wj_required⟩

/-- Modelled from the spec: the attendance-flag mapping exactly as the
spec words it, mapping to 1 when the lowercase-trimmed value equals
"yes".  It exists only to be compared with the source's `wj_flag`, which
lowercases but does not trim. -/
def spec_wj_flag (x : String) : Int :=
  if py_strip (py_lower x) = "yes" then 1 else 0

/-! ## Concrete input tables used by the examples and counterexamples -/

/-- A Growthflow raw row as a column-name-to-value mapping. -/
def mkGFRow (n e p d : String) : String → String :=
  fun c =>
    if c = "First Name" then n
    else if c = "Email" then e
    else if c = "Phone" then p
    else if c = "Attendance_Day" then d
    else ""

/-- A WebinarJam raw row as a column-name-to-value mapping. -/
def mkWJRow (n e p a : String) : String → String :=
  fun c =>
    if c = "First name" then n
    else if c = "Email" then e
    else if c = "Phone number" then p
    else if c = "Attended live" then a
    else ""

/-- Growthflow input whose email group holds names A, B, B: the most
frequent name is B, the first-seen name is A. -/
def gfNameTable : RawTable :=
  ⟨gf_required,
   [mkGFRow "A" "e1" "p1" "Mon", mkGFRow "B" "e1" "p1" "Mon", mkGFRow "B" "e1" "p1" "Mon"]⟩

/-- Growthflow input whose two emails first appear in the order
b@x, a@x. -/
def gfOrderTable : RawTable :=
  ⟨gf_required, [mkGFRow "N1" "b@x" "p1" "Mon", mkGFRow "N2" "a@x" "p2" "Tue"]⟩

/-- The worked Growthflow example of the spec:
rows (A, e1, p1, "Mon"), (A, e1, p1, "Mon,Tue"), (B, e1, p1, ""). -/
def gfSpecTable : RawTable :=
  ⟨gf_required,
   [mkGFRow "A" "e1" "p1" "Mon", mkGFRow "A" "e1" "p1" "Mon,Tue", mkGFRow "B" "e1" "p1" ""]⟩

/-- The worked WebinarJam example of the spec:
rows (A, e1, p1, Yes), (A, e1, p1, No), (A, e1, p1, Yes). -/
def wjSpecTable : RawTable :=
  ⟨wj_required,
   [mkWJRow "A" "e1" "p1" "Yes", mkWJRow "A" "e1" "p1" "No", mkWJRow "A" "e1" "p1" "Yes"]⟩

/-- WebinarJam input with one email shared by two names. -/
def wjTwoNamesTable : RawTable :=
  ⟨wj_required, [mkWJRow "A" "e1" "p1" "Yes", mkWJRow "B" "e1" "p1" "Yes"]⟩

/-- WebinarJam input whose two rows differ only in surrounding whitespace
of the phone value. -/
def wjPhoneWsTable : RawTable :=
  ⟨wj_required, [mkWJRow "A" "e1" " p1 " "Yes", mkWJRow "A" "e1" "p1" "Yes"]⟩

/-- A Growthflow-selected table whose header lacks the `Email` column. -/
def gfMissingColTable : RawTable :=
  ⟨["First Name", "Phone", "Attendance_Day"], [mkGFRow "A" "e1" "p1" "Mon"]⟩

/-- A WebinarJam-selected table whose header lacks `Attended live`. -/
def wjMissingColTable : RawTable :=
  ⟨["First name", "Email", "Phone number"], [mkWJRow "A" "e1" "p1" "Yes"]⟩

/-! ## Lemmas about the generic helpers -/

theorem mem_firstDedup {α : Type} [DecidableEq α] (a : α) (l : List α) :
    a ∈ firstDedup l ↔ a ∈ l := by
  induction l with
  | nil => simp [firstDedup]
  | cons x xs ih =>
    by_cases h : a = x <;> simp [firstDedup, List.mem_filter, ih, h]

theorem nodup_firstDedup {α : Type} [DecidableEq α] (l : List α) :
    (firstDedup l).Nodup := by
  induction l with
  | nil => simp [firstDedup]
  | cons x xs ih =>
    refine List.nodup_cons.mpr ⟨fun hx => ?_, ih.filter _⟩
    simp [List.mem_filter] at hx

theorem firstDedup_eq_self {α : Type} [DecidableEq α] {l : List α} (h : l.Nodup) :
    firstDedup l = l := by
  induction l with
  | nil => rfl
  | cons x xs ih =>
    rw [List.nodup_cons] at h
    rw [firstDedup, ih h.2, List.filter_eq_self.mpr]
    intro a ha
    simp only [ne_eq, decide_eq_true_eq]
    intro e
    exact h.1 (e ▸ ha)

theorem firstDedup_idem {α : Type} [DecidableEq α] (l : List α) :
    firstDedup (firstDedup l) = firstDedup l :=
  firstDedup_eq_self (nodup_firstDedup l)

theorem firstDedup_cons_cons {α : Type} [DecidableEq α] (a : α) (l : List α) :
    firstDedup (a :: a :: l) = firstDedup (a :: l) := by
  simp [firstDedup, List.filter_filter]

theorem firstDedup_cons_congr {α : Type} [DecidableEq α] (a : α) {l₁ l₂ : List α}
    (h : firstDedup l₁ = firstDedup l₂) :
    firstDedup (a :: l₁) = firstDedup (a :: l₂) := by
  rw [firstDedup, firstDedup, h]

theorem firstDedup_replicate_append {α : Type} [DecidableEq α] (n : Nat) (a : α) (l : List α) :
    firstDedup (List.replicate (n + 1) a ++ l) = firstDedup (a :: l) := by
  induction n with
  | zero => rfl
  | succ n ih =>
    have h2 : List.replicate (n + 1) a ++ l = a :: (List.replicate n a ++ l) := by
      rw [List.replicate_succ, List.cons_append]
    have h1 : List.replicate (n + 1 + 1) a ++ l = a :: a :: (List.replicate n a ++ l) := by
      rw [List.replicate_succ, List.cons_append, h2]
    rw [h1, firstDedup_cons_cons, ← h2]
    exact ih

theorem mem_insertBy {α : Type} (lt : α → α → Bool) (x a : α) (l : List α) :
    a ∈ insertBy lt x l ↔ a = x ∨ a ∈ l := by
  induction l with
  | nil => simp [insertBy]
  | cons y ys ih =>
    by_cases h : lt y x
    · simp only [insertBy, h, if_true, List.mem_cons, ih]
      tauto
    · simp [insertBy, h]

theorem mem_sortBy {α : Type} (lt : α → α → Bool) (a : α) (l : List α) :
    a ∈ sortBy lt l ↔ a ∈ l := by
  induction l with
  | nil => simp [sortBy]
  | cons x xs ih => simp [sortBy, mem_insertBy, ih]

theorem insertBy_perm {α : Type} (lt : α → α → Bool) (x : α) (l : List α) :
    (insertBy lt x l).Perm (x :: l) := by
  induction l with
  | nil => simp [insertBy]
  | cons y ys ih =>
    by_cases h : lt y x
    · simp only [insertBy, h, if_true]
      exact (ih.cons y).trans (List.Perm.swap x y ys)
    · simp [insertBy, h]

theorem sortBy_perm {α : Type} (lt : α → α → Bool) (l : List α) :
    (sortBy lt l).Perm l := by
  induction l with
  | nil => simp [sortBy]
  | cons x xs ih => exact (insertBy_perm lt x (sortBy lt xs)).trans (ih.cons x)

theorem nodup_sortBy {α : Type} (lt : α → α → Bool) {l : List α} (h : l.Nodup) :
    (sortBy lt l).Nodup :=
  ((sortBy_perm lt l).nodup_iff).mpr h

theorem map_filter_comm {α β : Type} (f : α → β) (p : β → Bool) (l : List α) :
    (l.filter (fun a => p (f a))).map f = (l.map f).filter p := by
  induction l with
  | nil => rfl
  | cons a l ih => by_cases h : p (f a) <;> simp [h, ih]

theorem length_firstDedup_eq_card {α : Type} [DecidableEq α] (l : List α) :
    (firstDedup l).length = l.toFinset.card := by
  have h1 : (firstDedup l).toFinset = l.toFinset := by
    apply Finset.ext
    intro a
    simp [List.mem_toFinset, mem_firstDedup]
  rw [← h1, List.toFinset_card_of_nodup (nodup_firstDedup l)]

/-! ## Lemmas about Python-style stripping -/

theorem dropWhile_ws_append {a : List Char} (m : List Char) (h : ∀ c ∈ a, isPyWs c) :
    (a ++ m).dropWhile isPyWs = m.dropWhile isPyWs := by
  induction a with
  | nil => rfl
  | cons c cs ih =>
    rw [List.cons_append, List.dropWhile_cons, if_pos (h c (List.mem_cons_self c cs))]
    exact ih (fun d hd => h d (List.mem_cons_of_mem c hd))

theorem dropTrailingWs_of_all {b : List Char} (h : ∀ c ∈ b, isPyWs c) :
    dropTrailingWs b = [] := by
  induction b with
  | nil => rfl
  | cons c cs ih =>
    have hcs := ih (fun d hd => h d (List.mem_cons_of_mem c hd))
    simp [dropTrailingWs, hcs, h c (List.mem_cons_self c cs)]

theorem dropTrailingWs_append_of_all {b : List Char} (m : List Char)
    (h : ∀ c ∈ b, isPyWs c) :
    dropTrailingWs (m ++ b) = dropTrailingWs m := by
  induction m with
  | nil => rw [List.nil_append, dropTrailingWs_of_all h]; rfl
  | cons c cs ih =>
    rw [List.cons_append]
    show (if dropTrailingWs (cs ++ b) = [] then (if isPyWs c then [] else [c])
          else c :: dropTrailingWs (cs ++ b)) = _
    rw [ih]
    rfl

theorem dropTrailingWs_idem (l : List Char) :
    dropTrailingWs (dropTrailingWs l) = dropTrailingWs l := by
  induction l with
  | nil => rfl
  | cons c cs ih =>
    by_cases h : dropTrailingWs cs = []
    · by_cases hc : isPyWs c <;> simp [dropTrailingWs, h, hc]
    · rw [show dropTrailingWs (c :: cs) = c :: dropTrailingWs cs from by
        simp [dropTrailingWs, h]]
      simp [dropTrailingWs, h, ih]

theorem dropTrailingWs_cons_of_cons {l : List Char} {c : Char} {rs : List Char}
    (h : dropTrailingWs l = c :: rs) : ∃ t, l = c :: t := by
  cases l with
  | nil => simp [dropTrailingWs] at h
  | cons a as =>
    by_cases ha : dropTrailingWs as = []
    · by_cases hws : isPyWs a <;> simp [dropTrailingWs, ha, hws] at h
      · exact ⟨as, by rw [h.1]⟩
    · simp [dropTrailingWs, ha] at h
      exact ⟨as, by rw [h.1]⟩

theorem dropWhile_head_not_ws {l r : List Char} {c : Char}
    (h : l.dropWhile isPyWs = c :: r) : isPyWs c = false := by
  induction l with
  | nil => simp [List.dropWhile] at h
  | cons a as ih =>
    rw [List.dropWhile_cons] at h
    by_cases ha : isPyWs a
    · rw [if_pos ha] at h
      exact ih h
    · rw [if_neg ha] at h
      injection h with h1 h2
      rw [← h1]
      simpa using ha

theorem dropWhile_append_of_ne_nil {m : List Char} (b : List Char)
    (h : m.dropWhile isPyWs ≠ []) :
    (m ++ b).dropWhile isPyWs = m.dropWhile isPyWs ++ b := by
  induction m with
  | nil => simp [List.dropWhile] at h
  | cons c cs ih =>
    rw [List.cons_append, List.dropWhile_cons, List.dropWhile_cons]
    by_cases hc : isPyWs c
    · rw [if_pos hc, if_pos hc]
      rw [List.dropWhile_cons, if_pos hc] at h
      exact ih h
    · rw [if_neg hc, if_neg hc, List.cons_append]

theorem py_strip_idem (s : String) : py_strip (py_strip s) = py_strip s := by
  show (⟨dropTrailingWs ((dropTrailingWs (s.data.dropWhile isPyWs)).dropWhile isPyWs)⟩ : String)
      = ⟨dropTrailingWs (s.data.dropWhile isPyWs)⟩
  have hdw : (dropTrailingWs (s.data.dropWhile isPyWs)).dropWhile isPyWs
      = dropTrailingWs (s.data.dropWhile isPyWs) := by
    cases hr : dropTrailingWs (s.data.dropWhile isPyWs) with
    | nil => rfl
    | cons c rs =>
      obtain ⟨t, ht⟩ := dropTrailingWs_cons_of_cons hr
      have hcf : isPyWs c = false := dropWhile_head_not_ws ht
      rw [List.dropWhile_cons, if_neg (by simp [hcf])]
  rw [hdw, dropTrailingWs_idem]

theorem py_strip_ws_pad (p ws1 ws2 : String)
    (h1 : ∀ c ∈ ws1.data, isPyWs c) (h2 : ∀ c ∈ ws2.data, isPyWs c) :
    py_strip (ws1 ++ p ++ ws2) = py_strip p := by
  show (⟨dropTrailingWs ((ws1 ++ p ++ ws2).data.dropWhile isPyWs)⟩ : String)
      = ⟨dropTrailingWs (p.data.dropWhile isPyWs)⟩
  rw [String.data_append, String.data_append, List.append_assoc, dropWhile_ws_append _ h1]
  by_cases hm : p.data.dropWhile isPyWs = []
  · have hall : ∀ c ∈ p.data ++ ws2.data, isPyWs c := by
      intro c hc
      rcases List.mem_append.mp hc with hp | hw
      · exact List.dropWhile_eq_nil_iff.mp hm c hp
      · exact h2 c hw
    rw [List.dropWhile_eq_nil_iff.mpr hall, hm]
  · rw [dropWhile_append_of_ne_nil _ hm, dropTrailingWs_append_of_all _ h2]

/-! ## Lemmas about the Growthflow pipeline -/

theorem map_eq_replicate {α β : Type} (l : List α) (b : β) (f : α → β) (h : ∀ a, f a = b) :
    l.map f = List.replicate l.length b := by
  induction l with
  | nil => rfl
  | cons a l ih => simp [h, ih, List.replicate_succ]

theorem explode_rec_length_pos (r : GFRec) : 0 < (explode_rec r).length := by
  rw [explode_rec]
  cases parse_day_set r.attendance_day with
  | nil => simp
  | cons d ds => simp

theorem mem_explode_rec_fst {r : GFRec} {x : GFRec × Option String}
    (h : x ∈ explode_rec r) : x.1 = r := by
  rw [explode_rec] at h
  cases hp : parse_day_set r.attendance_day with
  | nil =>
    rw [hp] at h
    simp at h
    rw [h]
  | cons d ds =>
    rw [hp] at h
    obtain ⟨a, _, rfl⟩ := List.mem_map.mp h
    rfl

theorem explode_rec_map_email (r : GFRec) :
    (explode_rec r).map (fun p => p.1.email) =
      List.replicate (explode_rec r).length r.email := by
  rw [explode_rec]
  cases parse_day_set r.attendance_day with
  | nil => rfl
  | cons d ds =>
    rw [List.map_map, List.length_map]
    exact map_eq_replicate _ _ _ (fun a => rfl)

theorem firstDedup_flatMap_emails (recs : List GFRec) :
    firstDedup ((recs.flatMap explode_rec).map (fun p => p.1.email)) =
      firstDedup (recs.map (fun r => r.email)) := by
  induction recs with
  | nil => rfl
  | cons r rs ih =>
    rw [List.flatMap_cons, List.map_append, explode_rec_map_email, List.map_cons]
    cases hn : (explode_rec r).length with
    | zero => exact absurd hn (Nat.pos_iff_ne_zero.mp (explode_rec_length_pos r))
    | succ n =>
      rw [firstDedup_replicate_append]
      exact firstDedup_cons_congr _ ih

theorem map_email_drop_dup (l : List SRow) :
    (drop_dup_by_email l).map (fun r => r.email) =
      firstDedup (l.map (fun r => r.email)) := by
  induction l with
  | nil => rfl
  | cons r rs ih =>
    show r.email :: ((drop_dup_by_email rs).filter
        (fun x => decide (x.email ≠ r.email))).map (fun r => r.email)
      = r.email :: (firstDedup (rs.map (fun r => r.email))).filter
        (fun y => decide (y ≠ r.email))
    rw [map_filter_comm (fun r : SRow => r.email) (fun e => decide (e ≠ r.email)), ih]

theorem mem_of_mem_drop_dup {l : List SRow} {x : SRow}
    (h : x ∈ drop_dup_by_email l) : x ∈ l := by
  induction l with
  | nil => simp [drop_dup_by_email] at h
  | cons r rs ih =>
    rw [drop_dup_by_email] at h
    rcases List.mem_cons.mp h with rfl | h2
    · exact List.mem_cons_self _ _
    · exact List.mem_cons_of_mem _ (ih (List.mem_of_mem_filter h2))

theorem map_email_with_attendance (ex : List (GFRec × Option String)) :
    (with_attendance ex).map (fun r => r.email) = ex.map (fun p => p.1.email) := by
  rw [with_attendance, List.map_map]
  rfl

theorem mem_with_attendance_attendance {ex : List (GFRec × Option String)} {x : SRow}
    (h : x ∈ with_attendance ex) : x.attendance = nunique_days ex x.email := by
  rw [with_attendance] at h
  obtain ⟨p, hp, rfl⟩ := List.mem_map.mp h
  rfl

theorem nunique_days_nonneg (ex : List (GFRec × Option String)) (e : String) :
    0 ≤ nunique_days ex e :=
  Int.natCast_nonneg _

theorem filter_email_eq_singleton {l : List SRow}
    (hnd : (l.map (fun r => r.email)).Nodup) {x : SRow} (hx : x ∈ l) :
    l.filter (fun r => r.email = x.email) = [x] := by
  induction l with
  | nil => cases hx
  | cons a as ih =>
    rw [List.map_cons, List.nodup_cons] at hnd
    rcases List.mem_cons.mp hx with rfl | hx'
    · rw [List.filter_cons_of_pos (by simp)]
      have hnil : as.filter (fun r => decide (r.email = x.email)) = [] := by
        rw [List.filter_eq_nil_iff]
        intro r hr
        simp only [decide_eq_true_eq]
        intro he
        exact hnd.1 (he ▸ List.mem_map_of_mem _ hr)
      rw [hnil]
    · have hne : a.email ≠ x.email := by
        intro he
        exact hnd.1 (he ▸ List.mem_map_of_mem _ hx')
      rw [List.filter_cons_of_neg (by simpa using hne)]
      exact ih hnd.2 hx'

theorem mem_gmffn_rows {df : List SRow} {row : SRow}
    (h : row ∈ (get_most_frequent_first_name df).rows) :
    ∃ e ∈ df.map (fun r => r.email), row = gmffn_row df e := by
  rw [get_most_frequent_first_name] at h
  obtain ⟨e, he, rfl⟩ := List.mem_map.mp h
  refine ⟨e, ?_, rfl⟩
  rw [← mem_firstDedup]
  exact (mem_sortBy _ _ _).mp he

theorem process_growthflow_ok {t : RawTable} {s : SummaryTable}
    (h : process_growthflow t = Except.ok s) :
    s = get_most_frequent_first_name
      (drop_dup_by_email (with_attendance ((gf_recs t).flatMap explode_rec))) := by
  rw [process_growthflow] at h
  split at h
  · injection h with h'
    exact h'.symm
  · exact Except.noConfusion h

theorem filter_flatMap_explode (recs : List GFRec) (e : String) :
    (recs.flatMap explode_rec).filter (fun p => p.1.email = e) =
      (recs.filter (fun r => r.email = e)).flatMap explode_rec := by
  induction recs with
  | nil => rfl
  | cons r rs ih =>
    rw [List.flatMap_cons, List.filter_append, ih]
    by_cases h : r.email = e
    · rw [List.filter_cons_of_pos (by simpa using h), List.flatMap_cons]
      congr 1
      rw [List.filter_eq_self]
      intro x hx
      simp only [decide_eq_true_eq]
      rw [mem_explode_rec_fst hx]
      exact h
    · rw [List.filter_cons_of_neg (by simpa using h)]
      have hnil : (explode_rec r).filter (fun p => decide (p.1.email = e)) = [] := by
        rw [List.filter_eq_nil_iff]
        intro x hx
        simp only [decide_eq_true_eq]
        rw [mem_explode_rec_fst hx]
        exact h
      rw [hnil, List.nil_append]

theorem filterMap_snd_explode (r : GFRec) :
    (explode_rec r).filterMap (fun p => p.2) = parse_day_set r.attendance_day := by
  rw [explode_rec]
  cases parse_day_set r.attendance_day with
  | nil => rfl
  | cons d ds =>
    rw [List.filterMap_map]
    exact List.filterMap_some _

theorem filterMap_snd_flatMap (recs : List GFRec) :
    (recs.flatMap explode_rec).filterMap (fun p => p.2) =
      recs.flatMap (fun r => parse_day_set r.attendance_day) := by
  induction recs with
  | nil => rfl
  | cons r rs ih =>
    rw [List.flatMap_cons, List.filterMap_append, filterMap_snd_explode, ih, List.flatMap_cons]

theorem nunique_days_eq_card (recs : List GFRec) (e : String) :
    nunique_days (recs.flatMap explode_rec) e =
      ((((recs.filter (fun r => r.email = e)).flatMap
        (fun r => parse_day_set r.attendance_day)).toFinset.card : Int)) := by
  rw [nunique_days]
  congr 1
  rw [filter_flatMap_explode, filterMap_snd_flatMap, length_firstDedup_eq_card]

/-! ## Lemmas about the WebinarJam pipeline -/

theorem mem_wj_rows {t : RawTable} {row : SRow} (h : row ∈ (wj_summary t).rows) :
    ∃ k ∈ (wj_recs t).map wj_key, row = wj_row t k := by
  rw [wj_summary] at h
  obtain ⟨k, hk, rfl⟩ := List.mem_map.mp h
  refine ⟨k, ?_, rfl⟩
  rw [← mem_firstDedup]
  exact (mem_sortBy _ _ _).mp hk

theorem process_webinarjam_ok {t : RawTable} {s : SummaryTable}
    (h : process_webinarjam t = Except.ok s) : s = wj_summary t := by
  rw [process_webinarjam] at h
  split at h
  · injection h with h'
    exact h'.symm
  · exact Except.noConfusion h

theorem wj_flag_nonneg (x : String) : 0 ≤ wj_flag x := by
  rw [wj_flag]
  split
  · decide
  · decide

theorem mem_wj_recs_attendance {t : RawTable} {r : WJRow} (h : r ∈ wj_recs t) :
    0 ≤ r.attendance := by
  rw [wj_recs] at h
  obtain ⟨q, hq, rfl⟩ := List.mem_map.mp h
  exact wj_flag_nonneg _

theorem mem_wj_recs_phone {t : RawTable} {r : WJRow} (h : r ∈ wj_recs t) :
    ∃ q, r.phone = py_strip q := by
  rw [wj_recs] at h
  obtain ⟨q, hq, rfl⟩ := List.mem_map.mp h
  exact ⟨q "Phone number", rfl⟩

/-! ## Claim theorems -/

/-- C1 (code bug): the claim — and the helper's own documentation — say the
output name of an email group is the most frequently occurring name among
that email's raw rows.  On `gfNameTable` the group of email e1 carries
names A, B, B: `most_frequent_name` itself picks B, yet the pipeline
outputs the first-seen name A, because `drop_duplicates(['Email'])` on
line 58 discards every row but the first of each email before
`get_most_frequent_first_name` runs. -/
theorem growthflow_name_is_first_seen_not_most_frequent :
    okRows (process_growthflow gfNameTable) =
      [{ first_name := "A", email := "e1", phone := "p1", attendance := 1 }] ∧
    most_frequent_name ((gf_recs gfNameTable).map (fun r => r.first_name)) = "B" ∧
    ("A" : String) ≠ "B" := by
  decide

/-- C2 (counterexample): on `gfOrderTable` the two emails first appear in
the order b@x, a@x, yet the Growthflow output lists a@x first — pandas
`groupby` sorts the group keys, so output order is not first-appearance
order. -/
theorem growthflow_output_not_first_appearance_order :
    (okRows (process_growthflow gfOrderTable)).map (fun r => r.email) = ["a@x", "b@x"] ∧
    firstDedup (gfOrderTable.rows.map (fun r => r "Email")) = ["b@x", "a@x"] ∧
    (okRows (process_growthflow gfOrderTable)).map (fun r => r.email) ≠
      firstDedup (gfOrderTable.rows.map (fun r => r "Email")) := by
  decide

/-- C2 (amended): the rows of the output appear in ascending lexicographic
order of the grouping key — the distinct emails sorted ascending for
Growthflow, the distinct (name, email, stripped phone) triples sorted
ascending for WebinarJam — not in first-appearance order. -/
theorem output_order_sorted_by_group_key :
    (∀ (t : RawTable) (s : SummaryTable), process_growthflow t = Except.ok s →
      s.rows.map (fun r => r.email) =
        sortBy strLt (firstDedup (t.rows.map (fun r => r "Email")))) ∧
    (∀ (t : RawTable) (s : SummaryTable), process_webinarjam t = Except.ok s →
      s.rows.map (fun r => (r.first_name, r.email, r.phone)) =
        sortBy tripLt (firstDedup (t.rows.map (fun r =>
          (r "First name", r "Email", py_strip (r "Phone number")))))) := by
  constructor
  · intro t s h
    rw [process_growthflow_ok h, get_most_frequent_first_name]
    show ((sortBy strLt (firstDedup _)).map _).map _ = _
    rw [List.map_map]
    have h1 : ((fun r : SRow => r.email) ∘
        gmffn_row (drop_dup_by_email (with_attendance ((gf_recs t).flatMap explode_rec)))) =
        id := funext (fun e => rfl)
    rw [h1, List.map_id]
    congr 1
    rw [map_email_drop_dup, firstDedup_idem, map_email_with_attendance,
      firstDedup_flatMap_emails]
    congr 1
    rw [gf_recs, List.map_map]
    rfl
  · intro t s h
    rw [process_webinarjam_ok h, wj_summary]
    show ((sortBy tripLt (firstDedup _)).map _).map _ = _
    rw [List.map_map]
    have h1 : ((fun r : SRow => (r.first_name, r.email, r.phone)) ∘ wj_row t) = id :=
      funext (fun k => rfl)
    rw [h1, List.map_id]
    congr 2
    rw [wj_recs, List.map_map]
    rfl

/-- C2 (witness): the amended order theorem applied to `gfOrderTable`. -/
theorem output_order_sorted_by_group_key_witness :
    ({ columns := ["Email", "First Name", "Phone", "Attendance"],
       rows := [{ first_name := "N2", email := "a@x", phone := "p2", attendance := 1 },
                { first_name := "N1", email := "b@x", phone := "p1", attendance := 1 }] }
      : SummaryTable).rows.map (fun r => r.email) =
      sortBy strLt (firstDedup (gfOrderTable.rows.map (fun r => r "Email"))) :=
  output_order_sorted_by_group_key.1 gfOrderTable _ (by rfl)

/-- C3 (counterexample): the day-list cell "Mon, Tue" parses to the token
" Tue" with its leading space kept — the code does not trim the pieces,
so the trimmed token "Tue" is not produced. -/
theorem parse_day_set_does_not_trim :
    parse_day_set "Mon, Tue" = ["Mon", " Tue"] ∧
    " Tue" ∈ parse_day_set "Mon, Tue" ∧ "Tue" ∉ parse_day_set "Mon, Tue" := by
  decide

/-- C3 (amended): the day-list field is split on the comma and collected
into a set of distinct tokens without trimming; the empty string yields
the empty set, not a singleton of the empty string. -/
theorem parse_day_set_split_no_trim :
    parse_day_set "" = [] ∧
    (∀ s : String, (parse_day_set s).Nodup) ∧
    (∀ s tok : String, tok ∈ parse_day_set s ↔ (s ≠ "" ∧ tok ∈ py_split_comma s)) := by
  refine ⟨rfl, ?_, ?_⟩
  · intro s
    rw [parse_day_set]
    split
    · simp
    · exact nodup_firstDedup _
  · intro s tok
    rw [parse_day_set]
    split
    · next h => simp [h]
    · next h => simp [mem_firstDedup, h]

/-- C4 (counterexample): for the flag value " yes" the lowercase-trimmed
value equals "yes", so the claim predicts 1, but the code lowercases
without trimming and maps it to 0. -/
theorem wj_flag_not_trimmed :
    py_strip (py_lower " yes") = "yes" ∧ wj_flag " yes" = 0 ∧
    spec_wj_flag " yes" = 1 ∧ wj_flag " yes" ≠ spec_wj_flag " yes" := by
  decide

/-- C4 (amended): the attendance flag maps to 1 exactly when its
lowercased — but not trimmed — value equals "yes", and to 0 otherwise;
every value maps to 0 or 1 (unrecognized values such as "maybe" count as
0 and are never an error: the mapping is total). -/
theorem wj_flag_lowercase_no_trim :
    (∀ x : String, (wj_flag x = 1 ↔ py_lower x = "yes") ∧ (wj_flag x = 1 ∨ wj_flag x = 0)) ∧
    wj_flag "maybe" = 0 ∧ wj_flag "MAYBE" = 0 ∧ wj_flag "Yes" = 1 ∧ wj_flag " yes " = 0 := by
  refine ⟨?_, by decide, by decide, by decide, by decide⟩
  intro x
  constructor
  · rw [wj_flag]
    split
    · next h => simp [h]
    · next h => simp [h]
  · rw [wj_flag]
    split
    · left
      rfl
    · right
      rfl

/-- C5: the attendance of a Growthflow output row is the number of
distinct day tokens across all records of that row's email (the counted
union of the per-record day-sets); in particular the spec's worked
example produces the single row (A, e1, p1, 2). -/
theorem growthflow_attendance_distinct_day_union :
    (∀ (t : RawTable) (s : SummaryTable) (row : SRow),
      process_growthflow t = Except.ok s → row ∈ s.rows →
      row.attendance = ((((gf_recs t).filter (fun r => r.email = row.email)).flatMap
        (fun r => parse_day_set r.attendance_day)).toFinset.card : Int)) ∧
    process_growthflow gfSpecTable = Except.ok
      { columns := ["Email", "First Name", "Phone", "Attendance"],
        rows := [{ first_name := "A", email := "e1", phone := "p1", attendance := 2 }] } := by
  refine ⟨?_, by rfl⟩
  intro t s row h hrow
  have hs := process_growthflow_ok h
  subst hs
  obtain ⟨e, he, rfl⟩ := mem_gmffn_rows hrow
  have hnd : ((drop_dup_by_email (with_attendance ((gf_recs t).flatMap explode_rec))).map
      (fun r => r.email)).Nodup := by
    rw [map_email_drop_dup]
    exact nodup_firstDedup _
  obtain ⟨x, hx, hxe⟩ := List.mem_map.mp he
  show (((drop_dup_by_email (with_attendance ((gf_recs t).flatMap explode_rec))).filter
      (fun r => r.email = e)).map (fun r => r.attendance)).sum = _
  rw [← hxe, filter_email_eq_singleton hnd hx]
  show ([x.attendance] : List Int).sum = ((((gf_recs t).filter (fun r => r.email = x.email)).flatMap
    (fun r => parse_day_set r.attendance_day)).toFinset.card : Int)
  rw [List.sum_cons, List.sum_nil, add_zero]
  rw [mem_with_attendance_attendance (mem_of_mem_drop_dup hx), nunique_days_eq_card]

/-- C5 (witness): the distinct-day-union theorem applied to the worked
example. -/
theorem growthflow_attendance_distinct_day_union_witness :
    ({ first_name := "A", email := "e1", phone := "p1", attendance := 2 } : SRow).attendance =
      ((((gf_recs gfSpecTable).filter (fun r => r.email =
        ({ first_name := "A", email := "e1", phone := "p1", attendance := 2 } : SRow).email)).flatMap
        (fun r => parse_day_set r.attendance_day)).toFinset.card : Int) :=
  growthflow_attendance_distinct_day_union.1 gfSpecTable
    { columns := ["Email", "First Name", "Phone", "Attendance"],
      rows := [{ first_name := "A", email := "e1", phone := "p1", attendance := 2 }] }
    { first_name := "A", email := "e1", phone := "p1", attendance := 2 }
    (by rfl) (by decide)

/-- C6: WebinarJam groups by the exact (name, email, phone) triple — the
output keys are pairwise distinct and each row's attendance is the sum of
the 0/1 flags of the records with that exact triple; the spec's worked
example yields the single row (A, e1, p1, 2), and one email shared by two
names yields two rows. -/
theorem webinarjam_groups_by_triple_sum_flags :
    (∀ (t : RawTable) (s : SummaryTable), process_webinarjam t = Except.ok s →
      (s.rows.map (fun r => (r.first_name, r.email, r.phone))).Nodup ∧
      ∀ row ∈ s.rows,
        row.attendance = (((wj_recs t).filter (fun r =>
            r.first_name = row.first_name ∧ r.email = row.email ∧ r.phone = row.phone)).map
          (fun r => r.attendance)).sum) ∧
    process_webinarjam wjSpecTable = Except.ok
      { columns := ["First Name", "Email", "Phone", "Attendance"],
        rows := [{ first_name := "A", email := "e1", phone := "p1", attendance := 2 }] } ∧
    process_webinarjam wjTwoNamesTable = Except.ok
      { columns := ["First Name", "Email", "Phone", "Attendance"],
        rows := [{ first_name := "A", email := "e1", phone := "p1", attendance := 1 },
                 { first_name := "B", email := "e1", phone := "p1", attendance := 1 }] } := by
  refine ⟨?_, by rfl, by rfl⟩
  intro t s h
  have hs := process_webinarjam_ok h
  subst hs
  constructor
  · rw [wj_summary]
    show (((sortBy tripLt (firstDedup _)).map _).map _).Nodup
    rw [List.map_map]
    have h1 : ((fun r : SRow => (r.first_name, r.email, r.phone)) ∘ wj_row t) = id :=
      funext (fun k => rfl)
    rw [h1, List.map_id]
    exact nodup_sortBy _ (nodup_firstDedup _)
  · intro row hrow
    obtain ⟨k, hk, rfl⟩ := mem_wj_rows hrow
    show (((wj_recs t).filter (fun r => wj_key r = k)).map (fun r => r.attendance)).sum =
      (((wj_recs t).filter (fun r =>
        r.first_name = k.1 ∧ r.email = k.2.1 ∧ r.phone = k.2.2)).map
        (fun r => r.attendance)).sum
    congr 1
    congr 1
    apply List.filter_congr
    intro r hr
    rw [decide_eq_decide]
    simp [wj_key, Prod.ext_iff]

/-- C6 (witness): the grouping theorem applied to the worked example. -/
theorem webinarjam_groups_by_triple_sum_flags_witness :
    (([{ first_name := "A", email := "e1", phone := "p1", attendance := 2 }] : List SRow).map
      (fun r => (r.first_name, r.email, r.phone))).Nodup :=
  (webinarjam_groups_by_triple_sum_flags.1 wjSpecTable
    { columns := ["First Name", "Email", "Phone", "Attendance"],
      rows := [{ first_name := "A", email := "e1", phone := "p1", attendance := 2 }] }
    (by rfl)).1

/-- C7: an input whose header lacks at least one required column of the
selected source type yields the schema failure naming the expected column
set, and no summary is produced. -/
theorem missing_columns_schema_error (t : RawTable) :
    ((∃ c ∈ gf_required, c ∉ t.columns) →
      process_growthflow t = Except.error { expected := gf_required }) ∧
    ((∃ c ∈ wj_required, c ∉ t.columns) →
      process_webinarjam t = Except.error { expected := wj_required }) := by
  constructor
  · rintro ⟨c, hc, hnc⟩
    have hcond : ¬ (gf_required.all (fun c => t.columns.contains c) = true) := by
      intro hall
      rw [List.all_eq_true] at hall
      exact hnc (List.elem_iff.mp (hall c hc))
    rw [process_growthflow, if_neg hcond]
  · rintro ⟨c, hc, hnc⟩
    have hcond : ¬ (wj_required.all (fun c => t.columns.contains c) = true) := by
      intro hall
      rw [List.all_eq_true] at hall
      exact hnc (List.elem_iff.mp (hall c hc))
    rw [process_webinarjam, if_neg hcond]

/-- C7 (witness): the schema-error theorem applied to inputs with a
missing column. -/
theorem missing_columns_schema_error_witness :
    process_growthflow gfMissingColTable = Except.error { expected := gf_required } ∧
    process_webinarjam wjMissingColTable = Except.error { expected := wj_required } :=
  ⟨(missing_columns_schema_error gfMissingColTable).1 ⟨"Email", by decide, by decide⟩,
   (missing_columns_schema_error wjMissingColTable).2 ⟨"Attended live", by decide, by decide⟩⟩

/-- C8 (counterexample): the Growthflow output columns are
Email, First Name, Phone, Attendance — `reset_index` re-inserts the group
key first — not the claimed First Name, Email, Phone, Attendance. -/
theorem growthflow_columns_email_first :
    okCols (process_growthflow gfSpecTable) = ["Email", "First Name", "Phone", "Attendance"] ∧
    okCols (process_growthflow gfSpecTable) ≠
      ["First Name", "Email", "Phone", "Attendance"] := by
  decide

/-- C8 (amended): a successful WebinarJam output has exactly the columns
First Name, Email, Phone, Attendance in that order, while a successful
Growthflow output has the same four columns in the order
Email, First Name, Phone, Attendance. -/
theorem output_columns_per_source (t : RawTable) :
    (∀ s : SummaryTable, process_growthflow t = Except.ok s →
      s.columns = ["Email", "First Name", "Phone", "Attendance"]) ∧
    (∀ s : SummaryTable, process_webinarjam t = Except.ok s →
      s.columns = ["First Name", "Email", "Phone", "Attendance"]) := by
  constructor
  · intro s h
    rw [process_growthflow_ok h]
    rfl
  · intro s h
    rw [process_webinarjam_ok h]
    rfl

/-- C8 (witness): the column theorem applied to the worked examples. -/
theorem output_columns_per_source_witness :
    ({ columns := ["Email", "First Name", "Phone", "Attendance"],
       rows := [{ first_name := "A", email := "e1", phone := "p1", attendance := 2 }] }
      : SummaryTable).columns = ["Email", "First Name", "Phone", "Attendance"] ∧
    ({ columns := ["First Name", "Email", "Phone", "Attendance"],
       rows := [{ first_name := "A", email := "e1", phone := "p1", attendance := 2 }] }
      : SummaryTable).columns = ["First Name", "Email", "Phone", "Attendance"] :=
  ⟨(output_columns_per_source gfSpecTable).1 _ (by rfl),
   (output_columns_per_source wjSpecTable).2 _ (by rfl)⟩

/-- C9: every output row of either aggregator has non-negative
attendance: a Growthflow attendance is a sum of distinct-day counts and a
WebinarJam attendance is a sum of 0/1 flags. -/
theorem attendance_nonneg :
    (∀ (t : RawTable) (s : SummaryTable) (row : SRow),
      process_growthflow t = Except.ok s → row ∈ s.rows → 0 ≤ row.attendance) ∧
    (∀ (t : RawTable) (s : SummaryTable) (row : SRow),
      process_webinarjam t = Except.ok s → row ∈ s.rows → 0 ≤ row.attendance) := by
  constructor
  · intro t s row h hrow
    have hs := process_growthflow_ok h
    subst hs
    obtain ⟨e, he, rfl⟩ := mem_gmffn_rows hrow
    apply List.sum_nonneg
    intro a ha
    obtain ⟨x, hx, rfl⟩ := List.mem_map.mp ha
    rw [mem_with_attendance_attendance (mem_of_mem_drop_dup (List.mem_of_mem_filter hx))]
    exact nunique_days_nonneg _ _
  · intro t s row h hrow
    have hs := process_webinarjam_ok h
    subst hs
    obtain ⟨k, hk, rfl⟩ := mem_wj_rows hrow
    apply List.sum_nonneg
    intro a ha
    obtain ⟨x, hx, rfl⟩ := List.mem_map.mp ha
    exact mem_wj_recs_attendance (List.mem_of_mem_filter hx)

/-- C9 (witness): non-negativity at the worked examples. -/
theorem attendance_nonneg_witness :
    (0 : Int) ≤ ({ first_name := "A", email := "e1", phone := "p1", attendance := 2 }
      : SRow).attendance ∧
    (0 : Int) ≤ ({ first_name := "B", email := "e1", phone := "p1", attendance := 1 }
      : SRow).attendance :=
  ⟨attendance_nonneg.1 gfSpecTable
    { columns := ["Email", "First Name", "Phone", "Attendance"],
      rows := [{ first_name := "A", email := "e1", phone := "p1", attendance := 2 }] }
    { first_name := "A", email := "e1", phone := "p1", attendance := 2 } (by rfl) (by decide),
   attendance_nonneg.2 wjTwoNamesTable
    { columns := ["First Name", "Email", "Phone", "Attendance"],
      rows := [{ first_name := "A", email := "e1", phone := "p1", attendance := 1 },
               { first_name := "B", email := "e1", phone := "p1", attendance := 1 }] }
    { first_name := "B", email := "e1", phone := "p1", attendance := 1 } (by rfl) (by decide)⟩

/-- C10: the WebinarJam phone field is stripped of surrounding whitespace
before grouping: every output phone is strip-invariant, stripping ignores
any whitespace padding (so padded variants of one phone share a group
key), and the worked two-row example with phones " p1 " and "p1" merges
into one row with phone "p1" and attendance 2. -/
theorem webinarjam_phone_stripped :
    (∀ (t : RawTable) (s : SummaryTable) (row : SRow),
      process_webinarjam t = Except.ok s → row ∈ s.rows →
      py_strip row.phone = row.phone) ∧
    (∀ p ws1 ws2 : String, (∀ c ∈ ws1.data, isPyWs c) → (∀ c ∈ ws2.data, isPyWs c) →
      py_strip (ws1 ++ p ++ ws2) = py_strip p) ∧
    process_webinarjam wjPhoneWsTable = Except.ok
      { columns := ["First Name", "Email", "Phone", "Attendance"],
        rows := [{ first_name := "A", email := "e1", phone := "p1", attendance := 2 }] } := by
  refine ⟨?_, fun p ws1 ws2 h1 h2 => py_strip_ws_pad p ws1 ws2 h1 h2, by rfl⟩
  intro t s row h hrow
  have hs := process_webinarjam_ok h
  subst hs
  obtain ⟨k, hk, rfl⟩ := mem_wj_rows hrow
  obtain ⟨r, hr, rfl⟩ := List.mem_map.mp hk
  obtain ⟨q, hq⟩ := mem_wj_recs_phone hr
  show py_strip r.phone = r.phone
  rw [hq, py_strip_idem]

/-- C10 (witness): the stripping theorem applied to the worked example. -/
theorem webinarjam_phone_stripped_witness :
    py_strip ({ first_name := "A", email := "e1", phone := "p1", attendance := 2 }
      : SRow).phone =
      ({ first_name := "A", email := "e1", phone := "p1", attendance := 2 } : SRow).phone ∧
    py_strip ("  " ++ "p1" ++ " ") = py_strip "p1" :=
  ⟨webinarjam_phone_stripped.1 wjPhoneWsTable
    { columns := ["First Name", "Email", "Phone", "Attendance"],
      rows := [{ first_name := "A", email := "e1", phone := "p1", attendance := 2 }] }
    { first_name := "A", email := "e1", phone := "p1", attendance := 2 } (by rfl) (by decide),
   webinarjam_phone_stripped.2.1 "p1" "  " " " (by decide) (by decide)⟩
